import Mathlib

/-!
Shallow embedding of the PlumeImpactor trust-and-signing core, translated from
the Rust sources under `src/`:

* `crates/types/src/bundle.rs` — bundle Info.plist mutation (`set_matching_identifier`)
* `crates/ldid2/src/signing/signer.rs` — depth-ordered signing pass
* `crates/grand_slam/src/auth/account/mod.rs` — `check_error`, `decrypt_cbc`,
  `create_session_key`
* `crates/grand_slam/src/auth/account/login.rs` — `login_email_pass`
* `crates/grand_slam/src/auth/account/token.rs` — `get_app_token`
* `crates/grand_slam/src/certificate/identity.rs` — certificate resolution and the
  CSR quota revoke-and-retry loop
* `crates/grand_slam/src/utils/provision.rs` — `MobileProvision`
* `crates/utils/src/signer.rs` — `sign_single_bundle` profile embedding

External library primitives (AES, HMAC-SHA256, AES-GCM, DER/X.509 parsing, the
SRP verifier) are modeled as explicit function parameters; everything the
repository itself computes is translated directly.
-/

namespace Plume

/-- Model of `plist::Value` restricted to the variants the embedded code touches. -/
inductive PValue where
  | pstr (s : String)
  | pint (n : Int)
  | pdata (d : List Nat)
  | pbool (b : Bool)
  | parr (xs : List PValue)
  | pdict (xs : List (String × PValue))

/-- Model of `plist::Dictionary`: an insertion-ordered association list. -/
abbrev PDict := List (String × PValue)

/-- `Dictionary::get`: first entry with the given key. -/
def dictGet (d : PDict) (k : String) : Option PValue :=
  (d.find? (fun e => e.1 == k)).map (fun e => e.2)

/-- `Dictionary::insert`: replace the value at an existing key in place
(keeping its position, as the ordered plist dictionary does), else append. -/
def dictInsert (d : PDict) (k : String) (v : PValue) : PDict :=
  if d.any (fun e => e.1 == k) then
    d.map (fun e => if e.1 == k then (k, v) else e)
  else
    d ++ [(k, v)]

/-- `Value::as_string`. -/
def PValue.asStr? : PValue → Option String
  | .pstr s => some s
  | _ => none

/-- `Value::as_signed_integer`. -/
def PValue.asInt? : PValue → Option Int
  | .pint n => some n
  | _ => none

/-- `Value::as_data`. -/
def PValue.asData? : PValue → Option (List Nat)
  | .pdata d => some d
  | _ => none

/-- `str::replace` for an empty pattern: the replacement is inserted at every
character boundary, matching Rust `match_indices` on the empty string. -/
def replaceEmptyPat (rep : List Char) : List Char → List Char
  | [] => rep
  | c :: rest => rep ++ c :: replaceEmptyPat rep rest

/-- `str::replace` for a non-empty pattern: scan left to right, replacing each
non-overlapping occurrence. The fuel argument (instantiated with the string
length) only makes the recursion structural; each step consumes at least one
character. -/
def replaceAux (pat rep : List Char) : Nat → List Char → List Char
  | _, [] => []
  | 0, s => s
  | fuel + 1, c :: rest =>
    if pat.isPrefixOf (c :: rest) then
      rep ++ replaceAux pat rep fuel ((c :: rest).drop pat.length)
    else
      c :: replaceAux pat rep fuel rest

/-- Rust `str::replace(pat, rep)`: literal (non-regex) substring substitution. -/
def rustReplace (s pat rep : String) : String :=
  match pat.data with
  | [] => ⟨replaceEmptyPat rep.data s.data⟩
  | _ :: _ => ⟨replaceAux pat.data rep.data s.data.length s.data⟩

/-- One guarded rewrite step of `Bundle::set_matching_identifier`
(types/src/bundle.rs): if the dictionary holds a string at `key`, replace the
old identifier in it; the dictionary is only updated when the value changed. -/
def replaceInStringKey (d : PDict) (key old_identifier new_identifier : String) : PDict :=
  match dictGet d key with
  | some (.pstr old_value) =>
    let new_value := rustReplace old_value old_identifier new_identifier
    if old_value ≠ new_value then dictInsert d key (.pstr new_value) else d
  | _ => d

/-- `Bundle::set_matching_identifier` (types/src/bundle.rs, lines 94-136) acting
on the parsed Info.plist dictionary: rewrite `CFBundleIdentifier`,
`WKCompanionAppBundleIdentifier`, and the nested
`NSExtension.NSExtensionAttributes.WKAppBundleIdentifier` by literal substring
substitution of the old identifier. -/
def set_matching_identifier (d : PDict) (old_identifier new_identifier : String) : PDict :=
  let d1 := replaceInStringKey d "CFBundleIdentifier" old_identifier new_identifier
  let d2 := replaceInStringKey d1 "WKCompanionAppBundleIdentifier" old_identifier new_identifier
  match dictGet d2 "NSExtension" with
  | some (.pdict ext) =>
    match dictGet ext "NSExtensionAttributes" with
    | some (.pdict attrs) =>
      match dictGet attrs "WKAppBundleIdentifier" with
      | some (.pstr old_value) =>
        let new_value := rustReplace old_value old_identifier new_identifier
        if old_value ≠ new_value then
          dictInsert d2 "NSExtension" (.pdict (dictInsert ext "NSExtensionAttributes"
            (.pdict (dictInsert attrs "WKAppBundleIdentifier" (.pstr new_value)))))
        else d2
      | _ => d2
    | _ => d2
  | _ => d2

/-- `BundleType` (types/src/bundle.rs). -/
inductive BundleType where
  | App
  | AppExtension
  | Framework
  | Unknown
deriving DecidableEq

/-- A discovered bundle as the ldid2 signing pass sees it: its directory path as
a list of filesystem components (so `components().count()` is the list length)
and its classified type. -/
structure MBundle where
  dir : List String
  btype : BundleType
deriving DecidableEq

/-- The sort key of the ldid2 signing pass: `b.get_dir().components().count()`. -/
def bundleDepth (b : MBundle) : Nat := b.dir.length

/-- The comparison used by `sort_by_key(|b| b.get_dir().components().count())`. -/
def depthLE (a b : MBundle) : Prop := bundleDepth a ≤ bundleDepth b

instance : DecidableRel depthLE := fun _ _ => Nat.decLe _ _

instance : IsTotal MBundle depthLE := ⟨fun _ _ => Nat.le_total _ _⟩

instance : IsTrans MBundle depthLE := ⟨fun _ _ _ => Nat.le_trans⟩

/-- The signing order of `Signer::sign` in `SignerMode::Default`
(ldid2/src/signing/signer.rs, lines 72-111): push the root bundle onto the
discovered sub-bundles, stable-sort ascending by path-component count, then
reverse, so the deepest bundles are signed first. -/
def sign_order (root : MBundle) (embedded : List MBundle) : List MBundle :=
  (List.insertionSort depthLE (embedded ++ [root])).reverse

/-- `b` lies strictly inside the directory `p`: its path extends `p` by at
least one component. Bundle discovery (`collect_embeded_bundles_from_dir`) only
returns directories reached by joining child names onto the root path, so every
discovered sub-bundle satisfies this relative to the root. -/
def strictlyUnder (p q : List String) : Prop := ∃ t, t ≠ [] ∧ q = p ++ t

/-- Certificate metadata returned by `qh_list_certs`
(grand_slam/src/developer/qh/certs.rs, struct `Cert`); only the fields the
certificate-identity logic reads are carried. -/
structure PortalCert where
  certificate_id : String
  serial_number : String
  cert_content : List Nat
  machine_name : Option String
deriving DecidableEq

/-- A parsed `X509Certificate` as `find_matching_certificate` consumes it: the
octet content of the `subject_public_key` BIT STRING of its
SubjectPublicKeyInfo (first byte = count of unused bits). DER parsing itself is
an external library call and is passed in as a function parameter. -/
structure ParsedCert where
  spki_bit_string : List Nat
deriving DecidableEq

/-- The per-certificate test inside `CertificateIdentity::find_matching_certificate`
(grand_slam/src/certificate/identity.rs, lines 117-141): parse the DER, take
the SPKI BIT STRING, skip it when empty or when it has unused bits, decode the
remaining bytes as a PKCS#1 public key, re-encode, and byte-compare with the
local public key. `parse`, `fromPkcs1`, `toPkcs1` stand for the external
`X509Certificate::from_der`, `RsaPublicKey::from_pkcs1_der`, `to_pkcs1_der`
(re-encoding a successfully decoded key is modeled as total). -/
def checkCertKey {K : Type} (parse : List Nat → Option ParsedCert)
    (fromPkcs1 : List Nat → Option K) (toPkcs1 : K → List Nat)
    (our_pub : List Nat) (c : PortalCert) : Option ParsedCert :=
  match parse c.cert_content with
  | none => none
  | some cert =>
    match cert.spki_bit_string with
    | [] => none
    | unused_bits :: pkcs1_bytes =>
      if unused_bits ≠ 0 then none
      else
        match fromPkcs1 pkcs1_bytes with
        | none => none
        | some cert_pub => if toPkcs1 cert_pub = our_pub then some cert else none

/-- `CertificateIdentity::find_matching_certificate` (identity.rs, lines
100-145): filter the portal certificates to those tagged with this machine
label, then return the first whose embedded public key byte-matches ours. -/
def find_matching_certificate {K : Type} (parse : List Nat → Option ParsedCert)
    (fromPkcs1 : List Nat → Option K) (toPkcs1 : K → List Nat)
    (machine_name : String) (our_pub : List Nat)
    (certs : List PortalCert) : Option ParsedCert :=
  (certs.filter (fun c => c.machine_name = some machine_name)).findSome?
    (checkCertKey parse fromPkcs1 toPkcs1 our_pub)

/-- Outcome of one `qh_submit_cert_csr` call, as `request_new_certificate`
matches on it: success with the new certificate id, a
`Error::DeveloperSession(code, msg)` portal error, or any other error variant. -/
inductive SubmitOutcome where
  | ok (certificate_id : String)
  | errDev (code : Int) (msg : String)
  | errOther
deriving DecidableEq

/-- The portal responses one iteration of the CSR submit loop can consume: the
submit outcome, then (only reached on quota code 7460) the certificate list
from `qh_list_certs` (`none` = that call itself failed and propagates) and
whether `qh_revoke_cert` succeeds. -/
structure QuotaRound where
  submit : SubmitOutcome
  listCerts : Option (List PortalCert)
  revokeOk : Bool
deriving DecidableEq

/-- Result of the CSR submit loop of `request_new_certificate` (identity.rs,
lines 179-219). `exhausted` is a model artifact marking that the supplied
response trace ran out while the loop was still going to submit again — the
source loop itself has no bound and would keep iterating. -/
inductive CsrLoopResult where
  | ok (certificate_id : String)
  | tooManyCertificates
  | submitFailed
  | listCertsFailed
  | revokeFailed (serial : String)
  | exhausted
deriving DecidableEq

/-- The `loop` of `CertificateIdentity::request_new_certificate` (identity.rs,
lines 179-219), driven by a trace of portal responses, one `QuotaRound` per
submission attempt. Returns the loop result together with the number of
`qh_submit_cert_csr` calls made. On quota code 7460 it looks up the existing
certificate for this machine label: if found it revokes it and retries
(`continue`), otherwise it fails with `Too many certificates`; any other error
fails with `Submit CSR failed`. -/
def csr_submit_loop (machine_name : String) : List QuotaRound → CsrLoopResult × Nat
  | [] => (.exhausted, 0)
  | r :: rest =>
    match r.submit with
    | .ok cid => (.ok cid, 1)
    | .errDev code _msg =>
      if code = 7460 then
        match r.listCerts with
        | none => (.listCertsFailed, 1)
        | some certs =>
          match certs.find? (fun c => c.machine_name = some machine_name) with
          | some target =>
            if r.revokeOk then
              let next := csr_submit_loop machine_name rest
              (next.1, next.2 + 1)
            else (.revokeFailed target.serial_number, 1)
          | none => (.tooManyCertificates, 1)
      else (.submitFailed, 1)
    | .errOther => (.submitFailed, 1)

/-- Result of the certificate-resolution part of `CertificateIdentity::new`
(identity.rs, lines 72-98): an existing portal certificate was matched, or a
new one was issued through the CSR loop, or that loop failed. -/
inductive NewCertResult where
  | found (cert : ParsedCert)
  | issued (certificate_id : String)
  | failed (r : CsrLoopResult)
deriving DecidableEq

/-- The decision core of `CertificateIdentity::new`: try
`find_matching_certificate` first and return its certificate with no CSR
submitted; only when no certificate matches, run the CSR submit loop of
`request_new_certificate`. The second component counts `qh_submit_cert_csr`
calls. -/
def certificate_identity_new {K : Type} (parse : List Nat → Option ParsedCert)
    (fromPkcs1 : List Nat → Option K) (toPkcs1 : K → List Nat)
    (machine_name : String) (our_pub : List Nat)
    (certs : List PortalCert) (rounds : List QuotaRound) : NewCertResult × Nat :=
  match find_matching_certificate parse fromPkcs1 toPkcs1 machine_name our_pub certs with
  | some cert => (.found cert, 0)
  | none =>
    match csr_submit_loop machine_name rounds with
    | (.ok cid, n) => (.issued cid, n)
    | (r, n) => (.failed r, n)

/-- The SMS-verification context threaded from request to verify; its payload
(phone number, mode, pending code) is never inspected by `login_email_pass`,
only carried, so a single representative field suffices here. -/
structure VerifyBody where
  mode : String
deriving DecidableEq

/-- `LoginState` (grand_slam/src/auth/mod.rs, lines 124-133). -/
inductive LoginState where
  | LoggedIn
  | NeedsDevice2FA
  | Needs2FAVerification
  | NeedsSMS2FA
  | NeedsSMS2FAVerification (body : VerifyBody)
  | NeedsExtraStep (step : String)
  | NeedsLogin
deriving DecidableEq

/-- The error variants of `grand_slam::Error` reachable from the embedded
functions. Interpolated context strings of `format!` are elided; the numeric
code and message the server supplied are carried verbatim. -/
inductive GsError where
  | authSrpWithMessage (code : Int) (msg : String)
  | parse
  | certificate (msg : String)
  | developerSession (code : Int) (msg : String)
deriving DecidableEq

/-- Result of `check_error`: success, a returned
`Error::AuthSrpWithMessage(ec, em)`, or a panic from one of its `unwrap()`
calls (missing or non-integer `ec`, or nonzero `ec` with missing or non-string
`em`). -/
inductive CheckErrorResult where
  | ok
  | fail (code : Int) (message : String)
  | panic
deriving DecidableEq

/-- `check_error` (grand_slam/src/auth/account/mod.rs, lines 26-40): take the
`Status` sub-dictionary when present (else the response itself), then require a
zero `ec`; a nonzero `ec` becomes `AuthSrpWithMessage(ec, em)`. The `unwrap()`
calls on `ec` and `em` are modeled as `panic`. -/
def check_error (res : PDict) : CheckErrorResult :=
  let res2 := match dictGet res "Status" with
    | some (.pdict d) => d
    | _ => res
  match (dictGet res2 "ec").bind PValue.asInt? with
  | none => .panic
  | some ec =>
    if ec ≠ 0 then
      match (dictGet res2 "em").bind PValue.asStr? with
      | some em => .fail ec em
      | none => .panic
    else .ok

/-- What a call of `login_email_pass` can do: return a `LoginState`, return an
error, or panic on one of its `unwrap()`/`expect` sites. -/
inductive LoginOutcome where
  | state (s : LoginState)
  | err (e : GsError)
  | panic
deriving DecidableEq

/-- The secondary-auth mapping at the end of `login_email_pass`
(login.rs, lines 228-240), applied to the `Status` dictionary of the
second-round response: `au = "trustedDeviceSecondaryAuth"` means device 2FA,
`au = "secondaryAuth"` means SMS 2FA, any other string is an extra step, and a
missing (or non-string) `au` means logged in. -/
def login_state_from_status (status : PDict) : LoginState :=
  match dictGet status "au" with
  | some (.pstr s) =>
    if s = "trustedDeviceSecondaryAuth" then .NeedsDevice2FA
    else if s = "secondaryAuth" then .NeedsSMS2FA
    else .NeedsExtraStep s
  | _ => .LoggedIn

/-- `Account::login_email_pass` (login.rs, lines 106-241) from the point where
the two SRP round responses have been received and parsed into dictionaries.
`process_reply_ok` abstracts `srp_client.process_reply(...)` succeeding,
`verify_server` abstracts `verifier.verify_server(&m2)`, and `decrypt_parse`
abstracts `decrypt_cbc` followed by `plist::from_bytes` on the decrypted
session payload (`none` = a failure the source `unwrap`s on). Every `unwrap()`
on a response field is modeled as `.panic`. -/
def login_email_pass (process_reply_ok : Bool) (verify_server : List Nat → Bool)
    (decrypt_parse : List Nat → Option PDict) (res1 res2 : PDict) : LoginOutcome :=
  match check_error res1 with
  | .panic => .panic
  | .fail c m => .err (.authSrpWithMessage c m)
  | .ok =>
  match (dictGet res1 "s").bind PValue.asData? with
  | none => .panic
  | some _salt =>
  match (dictGet res1 "B").bind PValue.asData? with
  | none => .panic
  | some _b_pub =>
  match (dictGet res1 "i").bind PValue.asInt? with
  | none => .panic
  | some _iters =>
  match (dictGet res1 "c").bind PValue.asStr? with
  | none => .panic
  | some _c =>
  if ¬ process_reply_ok then .panic
  else
  match check_error res2 with
  | .panic => .panic
  | .fail c m => .err (.authSrpWithMessage c m)
  | .ok =>
  match (dictGet res2 "M2").bind PValue.asData? with
  | none => .panic
  | some m2 =>
  if ¬ verify_server m2 then .panic
  else
  match (dictGet res2 "spd").bind PValue.asData? with
  | none => .panic
  | some spd =>
  match decrypt_parse spd with
  | none => .panic
  | some _decoded_spd =>
  match dictGet res2 "Status" with
  | some (.pdict status) => .state (login_state_from_status status)
  | _ => .panic

/-- Result of `Account::get_app_token`. -/
inductive TokenOutcome where
  | ok (token : String)
  | err (e : GsError)
deriving DecidableEq

/-- `Account::get_app_token` (token.rs, lines 75-133) from the encrypted token
bytes `et` onward: a 3-byte magic header `"XYZ"` ([88, 89, 90]), a 16-byte IV,
and ciphertext plus tag, decrypted with AES-256-GCM keyed by the session key
`sk` directly, with the 3-byte header as associated data. `gcm_open` abstracts
the external Botan AES-256/GCM primitive (key → iv → associated data →
ciphertext-and-tag → plaintext; `none` = authentication failure); the cipher
setup calls cannot fail for the key/nonce sizes enforced by the preceding
checks. `parse_plist` abstracts `plist::from_bytes` on the decrypted buffer. -/
def get_app_token (gcm_open : List Nat → List Nat → List Nat → List Nat → Option (List Nat))
    (parse_plist : List Nat → Option PDict)
    (sk et : List Nat) (app_name : String) : TokenOutcome :=
  if et.length < 3 + 16 + 16 then .err .parse
  else
    let header := et.take 3
    if header ≠ [88, 89, 90] then
      .err (.authSrpWithMessage 0 "Encrypted token is in an unknown format.")
    else
      let iv := (et.drop 3).take 16
      let ciphertext_and_tag := et.drop 19
      if sk.length ≠ 32 then .err .parse
      else if iv.length ≠ 16 then .err .parse
      else
        match gcm_open sk iv header ciphertext_and_tag with
        | none => .err (.authSrpWithMessage 0 "Failed to decrypt app token (Botan AES-256/GCM).")
        | some buf =>
          match parse_plist buf with
          | none => .err .parse
          | some decrypted_token =>
            match dictGet decrypted_token "t" with
            | some (.pdict app_tokens) =>
              match dictGet app_tokens app_name with
              | some (.pdict app_token) =>
                match (dictGet app_token "token").bind PValue.asStr? with
                | some token => .ok token
                | none => .err .parse
              | _ => .err .parse
            | _ => .err .parse

/-- `create_session_key` (grand_slam/src/auth/account/mod.rs, lines 54-61):
HMAC-SHA256 of the SRP shared secret over a label. `hmac` stands for the
external HMAC-SHA256 primitive (key → message label → 32-byte digest). -/
def create_session_key (hmac : List Nat → String → List Nat)
    (srp_key : List Nat) (name : String) : List Nat :=
  hmac srp_key name

/-- Bytewise xor of two equal-length buffers, as CBC mode combines blocks. -/
def xorBytes (a b : List Nat) : List Nat := List.zipWith Nat.xor a b

/-- CBC-mode encryption over 16-byte blocks: each plaintext block is xored with
the previous ciphertext block (initially the IV) before the block cipher. -/
def cbcEncryptBlocks (encB : List Nat → List Nat) (iv : List Nat) :
    List (List Nat) → List (List Nat)
  | [] => []
  | p :: ps =>
    let c := encB (xorBytes p iv)
    c :: cbcEncryptBlocks encB c ps

/-- CBC-mode decryption over 16-byte blocks, the semantics of the
`cbc::Decryptor` the source instantiates with AES-256. -/
def cbcDecryptBlocks (decB : List Nat → List Nat) (iv : List Nat) :
    List (List Nat) → List (List Nat)
  | [] => []
  | c :: cs => xorBytes (decB c) iv :: cbcDecryptBlocks decB c cs

/-- Split a byte buffer into consecutive 16-byte blocks. The fuel argument
(instantiated with the buffer length) makes the recursion structural. -/
def toBlocksAux : Nat → List Nat → List (List Nat)
  | 0, _ => []
  | _ + 1, [] => []
  | fuel + 1, c :: rest =>
    (c :: rest).take 16 :: toBlocksAux fuel ((c :: rest).drop 16)

/-- Split a byte buffer into consecutive 16-byte blocks. -/
def toBlocks (l : List Nat) : List (List Nat) := toBlocksAux l.length l

/-- Concatenate blocks back into a byte buffer. -/
def fromBlocks : List (List Nat) → List Nat
  | [] => []
  | b :: bs => b ++ fromBlocks bs

/-- PKCS7 padding to a 16-byte multiple: append `p` copies of the byte `p`,
where `p = 16 - len % 16` (a full block of 16s when already aligned). -/
def pkcs7Pad (m : List Nat) : List Nat :=
  let p := 16 - m.length % 16
  m ++ List.replicate p p

/-- PKCS7 unpadding as the `block-padding` crate checks it: the last byte `p`
must be in 1..=16, not exceed the buffer, and the last `p` bytes must all equal
`p`; otherwise unpadding fails. -/
def pkcs7Unpad (m : List Nat) : Option (List Nat) :=
  match m.getLast? with
  | none => none
  | some p =>
    if p = 0 ∨ 16 < p ∨ m.length < p then none
    else if (m.drop (m.length - p)).all (fun x => x = p) then
      some (m.take (m.length - p))
    else none

/-- `decrypt_cbc` (grand_slam/src/auth/account/mod.rs, lines 43-52): derive the
AES-256 key as HMAC-SHA256 of the SRP shared secret over `"extra data key:"`
and the IV as the first 16 bytes of the analogous `"extra data iv:"`
derivation, CBC-decrypt, and strip PKCS7 padding. `decB` stands for the
external AES-256 block decryption under a given key; `none` models the
`unwrap()`ed failure on ragged or badly padded input. -/
def decrypt_cbc (hmac : List Nat → String → List Nat)
    (decB : List Nat → List Nat → List Nat)
    (srp_key data : List Nat) : Option (List Nat) :=
  let extra_data_key := create_session_key hmac srp_key "extra data key:"
  let extra_data_iv := (create_session_key hmac srp_key "extra data iv:").take 16
  if data.length % 16 = 0 then
    pkcs7Unpad (fromBlocks (cbcDecryptBlocks (decB extra_data_key) extra_data_iv (toBlocks data)))
  else none

/-- Encryption with the same derived parameters as `decrypt_cbc`: PKCS7-pad the
plaintext and CBC-encrypt it under the `"extra data key:"` key and the first 16
bytes of the `"extra data iv:"` derivation. `encB` stands for AES-256 block
encryption under a given key. -/
def encrypt_cbc (hmac : List Nat → String → List Nat)
    (encB : List Nat → List Nat → List Nat)
    (srp_key plaintext : List Nat) : List Nat :=
  let extra_data_key := create_session_key hmac srp_key "extra data key:"
  let extra_data_iv := (create_session_key hmac srp_key "extra data iv:").take 16
  fromBlocks (cbcEncryptBlocks (encB extra_data_key) extra_data_iv (toBlocks (pkcs7Pad plaintext)))

/-- `MobileProvision` (grand_slam/src/utils/provision.rs, lines 9-14): the raw
profile bytes as loaded, the profile plist parsed out of them, and the parsed
`Entitlements` dictionary. -/
structure MobileProvision where
  provision_data : List Nat
  provisioning_plist : PValue
  entitlements : PDict

/-- The per-value step of `replace_wildcard_in_entitlements`: a string value
containing `*` has every `*` replaced by the concrete application id; inside an
array the same is applied to its string items; everything else is untouched. -/
def replaceWildcardValue (new_application_id : String) : PValue → PValue
  | .pstr s =>
    if s.data.contains '*' then .pstr (rustReplace s "*" new_application_id) else .pstr s
  | .parr xs =>
    .parr (xs.map (fun item =>
      match item with
      | .pstr s =>
        if s.data.contains '*' then .pstr (rustReplace s "*" new_application_id) else .pstr s
      | other => other))
  | other => other

/-- `MobileProvision::replace_wildcard_in_entitlements` (provision.rs, lines
50-70): mutate each entitlement value in place, substituting the concrete
application id for `*`. Only the parsed entitlements dictionary is touched. -/
def replace_wildcard_in_entitlements (p : MobileProvision)
    (new_application_id : String) : MobileProvision :=
  { p with entitlements :=
      p.entitlements.map (fun e => (e.1, replaceWildcardValue new_application_id e.2)) }

/-- The `^[A-Z0-9]\x7b10\x7d\.` test of `merge_entitlements`: ten uppercase
alphanumeric characters followed by a dot. -/
def teamPrefixed (s : String) : Bool :=
  (s.data.take 10).length = 10 &&
  (s.data.take 10).all (fun c =>
    (65 ≤ c.toNat && c.toNat ≤ 90) || (48 ≤ c.toNat && c.toNat ≤ 57)) &&
  s.data.get? 10 = some '.'

/-- The per-group rewrite of `merge_entitlements`: a keychain access group of
the form `TEAMID0123.rest` is rewritten to `new_id.rest`. -/
def rewriteGroup (new_id : String) : PValue → PValue
  | .pstr s =>
    if teamPrefixed s then .pstr (new_id ++ "." ++ (⟨s.data.drop 11⟩ : String)) else .pstr s
  | v => v

/-- `MobileProvision::merge_entitlements` (provision.rs, lines 72-108) given
the entitlements extracted from the sub-bundle binary (`none` = the Mach-O has
no entitlements, the source's `Error::ProvisioningEntitlementsUnknown`, raised
before any mutation): copy the binary's `keychain-access-groups` array into the
profile entitlements, then rewrite each group's team prefix to the profile's
`com.apple.developer.team-identifier`. -/
def merge_entitlements (p : MobileProvision)
    (binary_entitlements : Option PDict) : Option MobileProvision :=
  match binary_entitlements with
  | none => none
  | some bents =>
    let ents1 := match dictGet bents "keychain-access-groups" with
      | some (.parr other_groups) =>
        dictInsert p.entitlements "keychain-access-groups" (.parr other_groups)
      | _ => p.entitlements
    let new_team_id := (dictGet ents1 "com.apple.developer.team-identifier").bind PValue.asStr?
    let ents2 := match new_team_id with
      | some new_id =>
        match dictGet ents1 "keychain-access-groups" with
        | some (.parr groups) =>
          dictInsert ents1 "keychain-access-groups" (.parr (groups.map (rewriteGroup new_id)))
        | _ => ents1
      | none => ents1
    some { p with entitlements := ents2 }

/-- `MobileProvision::bundle_id` (provision.rs, lines 116-138): read
`application-identifier` from the entitlements, then the first element of the
profile plist's `ApplicationIdentifierPrefix`; any failure on that chain of
`?`s yields `none`, except a non-string first element, which falls back to the
full application identifier. When the prefix matches, it is stripped along with
the leading dots. -/
def bundle_id (p : MobileProvision) : Option String :=
  match dictGet p.entitlements "application-identifier" with
  | some (.pstr app_id) =>
    match p.provisioning_plist with
    | .pdict d =>
      match dictGet d "ApplicationIdentifierPrefix" with
      | some (.parr arr) =>
        match arr.get? 0 with
        | some (.pstr pre) =>
          if pre.data.isPrefixOf app_id.data then
            some ⟨(app_id.data.drop pre.data.length).dropWhile (fun c => c = '.')⟩
          else some app_id
        | some _ => some app_id
        | none => none
      | _ => none
    | _ => none
  | _ => none

/-- The profile-match test of `sign_single_bundle` (utils/src/signer.rs, lines
259-268): a profile matches only when both the sub-bundle identifier and the
profile's `bundle_id()` are present and string-equal. -/
def provMatchesBundle (bundle_identifier : Option String) (prov : MobileProvision) : Bool :=
  match bundle_identifier, bundle_id prov with
  | some bid, some pid => pid == bid
  | _, _ => false

/-- The profile selection of `sign_single_bundle` (utils/src/signer.rs, line
270): the first profile whose bundle id equals the sub-bundle identifier, else
`matched_prov.or_else(|| provisioning_files.first())` — the first profile in
the list. -/
def select_provisioning (bundle_identifier : Option String)
    (provisioning_files : List MobileProvision) : Option MobileProvision :=
  (provisioning_files.find? (provMatchesBundle bundle_identifier)).orElse
    (fun _ => provisioning_files.head?)

/-- The mutation chain `sign_single_bundle` applies to the selected profile
clone before writing it: wildcard substitution for the bundle identifier (when
one exists), then the keychain merge, whose failure is discarded with
`.ok()`. -/
def embed_mutated (bid : Option String) (bents : Option PDict)
    (p0 : MobileProvision) : MobileProvision :=
  let p1 := match bid with
    | some b => replace_wildcard_in_entitlements p0 b
    | none => p0
  match merge_entitlements p1 bents with
  | some p => p
  | none => p1

/-- The provisioning-profile embedding of `Signer::sign_single_bundle`
(utils/src/signer.rs, lines 254-293) for one bundle: when the bundle is an App
or AppExtension and profiles were collected, select a profile, clone it, apply
the wildcard substitution for this bundle's identifier, merge the binary's
keychain entitlements (a merge failure is discarded with `.ok()`), then write
the clone's `provision_data` to `embedded.mobileprovision` and use its
entitlements for the signing settings. Returns the bytes written (if any)
paired with the entitlements dictionary handed to
`settings.set_entitlements_xml` (the default is the empty dictionary). -/
def sign_single_bundle_embed (bundle_type : BundleType)
    (bundle_identifier : Option String) (binary_entitlements : Option PDict)
    (provisioning_files : List MobileProvision) : Option (List Nat) × PDict :=
  if bundle_type = .AppExtension ∨ bundle_type = .App then
    match provisioning_files with
    | [] => (none, [])
    | _ :: _ =>
      match select_provisioning bundle_identifier provisioning_files with
      | none => (none, [])
      | some prov0 =>
        let prov1 := match bundle_identifier with
          | some bid => replace_wildcard_in_entitlements prov0 bid
          | none => prov0
        let prov2 := match merge_entitlements prov1 binary_entitlements with
          | some p => p
          | none => prov1
        (some prov2.provision_data, prov2.entitlements)
  else (none, [])

theorem find_map_insert_self (d : PDict) (k : String) (v : PValue)
    (h : d.any (fun e => e.1 == k) = true) :
    (d.map (fun e => if e.1 == k then (k, v) else e)).find? (fun e => e.1 == k)
      = some (k, v) := by
  induction d with
  | nil => simp at h
  | cons e rest ih =>
    cases he : (e.1 == k) with
    | true =>
      rw [List.map_cons, if_pos he, List.find?_cons]
      simp only [beq_self_eq_true]
    | false =>
      rw [List.map_cons, if_neg (by simp [he]), List.find?_cons]
      simp only [he]
      apply ih
      simp only [List.any_cons, he, Bool.false_or] at h
      exact h

theorem find_map_insert_ne (d : PDict) (k k2 : String) (v : PValue) (hne : k2 ≠ k) :
    (d.map (fun e => if e.1 == k then (k, v) else e)).find? (fun e => e.1 == k2)
      = d.find? (fun e => e.1 == k2) := by
  induction d with
  | nil => rfl
  | cons e rest ih =>
    cases he : (e.1 == k) with
    | true =>
      have h1 : e.1 = k := eq_of_beq he
      have h2 : (k == k2) = false := by
        rcases hb : (k == k2) with _ | _
        · rfl
        · exact absurd (eq_of_beq hb).symm hne
      rw [List.map_cons, if_pos he, List.find?_cons, List.find?_cons]
      simp only [h1, h2, ih]
    | false =>
      rw [List.map_cons, if_neg (by simp [he]), List.find?_cons, List.find?_cons]
      cases hk2 : (e.1 == k2) with
      | true => simp only [hk2]
      | false => simp only [hk2, ih]

theorem dictGet_insert_self (d : PDict) (k : String) (v : PValue) :
    dictGet (dictInsert d k v) k = some v := by
  unfold dictGet dictInsert
  by_cases h : d.any (fun e => e.1 == k) = true
  · rw [if_pos h, find_map_insert_self d k v h]
    rfl
  · have hnone : d.find? (fun e => e.1 == k) = none := by
      rw [List.find?_eq_none]
      intro x hx hpx
      exact h (List.any_eq_true.mpr ⟨x, hx, hpx⟩)
    rw [if_neg h, List.find?_append, hnone, Option.none_or, List.find?_cons]
    simp only [beq_self_eq_true]
    rfl

theorem dictGet_insert_ne (d : PDict) (k k2 : String) (v : PValue) (hne : k2 ≠ k) :
    dictGet (dictInsert d k v) k2 = dictGet d k2 := by
  unfold dictGet dictInsert
  by_cases h : d.any (fun e => e.1 == k) = true
  · rw [if_pos h, find_map_insert_ne d k k2 v hne]
  · have h2 : (k == k2) = false := by
      rcases hb : (k == k2) with _ | _
      · rfl
      · exact absurd (eq_of_beq hb).symm hne
    rw [if_neg h, List.find?_append, List.find?_cons]
    simp only [h2, List.find?_nil, Option.or_none]

theorem replaceInStringKey_get_ne (d : PDict) (key old_id new_id k : String)
    (hk : k ≠ key) :
    dictGet (replaceInStringKey d key old_id new_id) k = dictGet d k := by
  unfold replaceInStringKey
  dsimp only
  split
  · split
    · exact dictGet_insert_ne d key k _ hk
    · rfl
  · rfl

theorem replaceInStringKey_get_self (d : PDict) (key old_id new_id s : String)
    (h : dictGet d key = some (.pstr s)) :
    dictGet (replaceInStringKey d key old_id new_id) key
      = some (.pstr (rustReplace s old_id new_id)) := by
  unfold replaceInStringKey
  simp only [h]
  split
  · exact dictGet_insert_self d key _
  · next hnn =>
    have heq : s = rustReplace s old_id new_id := by
      by_contra hc
      exact hnn hc
    rw [h, ← heq]

/-- C6: `set_matching_identifier` is a pure literal substring substitution: it
rewrites only the bundle-identifier, companion-app-identifier, and WatchKit
companion reference values, applying Rust `str::replace` of the old identifier
by the new one to each, leaves every other key untouched, and on the spec's
example turns `com.foo.app.watchkitextension` into
`com.foo.app.TEAMID.watchkitextension`. -/
theorem set_matching_identifier_literal_substitution :
    (dictGet (set_matching_identifier
        [("CFBundleIdentifier", .pstr "com.foo.app"),
         ("WKCompanionAppBundleIdentifier", .pstr "com.foo.app.watchkitextension")]
        "com.foo.app" "com.foo.app.TEAMID") "WKCompanionAppBundleIdentifier"
      = some (.pstr "com.foo.app.TEAMID.watchkitextension"))
    ∧
    (∀ (d : PDict) (old_id new_id s : String),
      dictGet d "CFBundleIdentifier" = some (.pstr s) →
      dictGet (set_matching_identifier d old_id new_id) "CFBundleIdentifier"
        = some (.pstr (rustReplace s old_id new_id)))
    ∧
    (∀ (d : PDict) (old_id new_id s : String),
      dictGet d "WKCompanionAppBundleIdentifier" = some (.pstr s) →
      dictGet (set_matching_identifier d old_id new_id) "WKCompanionAppBundleIdentifier"
        = some (.pstr (rustReplace s old_id new_id)))
    ∧
    (∀ (d : PDict) (old_id new_id : String) (ext attrs : PDict) (s : String),
      dictGet d "NSExtension" = some (.pdict ext) →
      dictGet ext "NSExtensionAttributes" = some (.pdict attrs) →
      dictGet attrs "WKAppBundleIdentifier" = some (.pstr s) →
      ∃ ext2 attrs2 : PDict,
        dictGet (set_matching_identifier d old_id new_id) "NSExtension"
          = some (.pdict ext2) ∧
        dictGet ext2 "NSExtensionAttributes" = some (.pdict attrs2) ∧
        dictGet attrs2 "WKAppBundleIdentifier"
          = some (.pstr (rustReplace s old_id new_id)))
    ∧
    (∀ (d : PDict) (old_id new_id k : String),
      k ≠ "CFBundleIdentifier" → k ≠ "WKCompanionAppBundleIdentifier" →
      k ≠ "NSExtension" →
      dictGet (set_matching_identifier d old_id new_id) k = dictGet d k) := by
  refine ⟨by rfl, ?_, ?_, ?_, ?_⟩
  · intro d old_id new_id s h
    have h1 := replaceInStringKey_get_self d "CFBundleIdentifier" old_id new_id s h
    have h2 : dictGet (replaceInStringKey (replaceInStringKey d "CFBundleIdentifier"
        old_id new_id) "WKCompanionAppBundleIdentifier" old_id new_id) "CFBundleIdentifier"
        = some (.pstr (rustReplace s old_id new_id)) := by
      rw [replaceInStringKey_get_ne _ _ _ _ _ (by decide), h1]
    unfold set_matching_identifier
    dsimp only
    split
    · split
      · split
        · split
          · rw [dictGet_insert_ne _ _ _ _ (by decide), h2]
          · exact h2
        · exact h2
      · exact h2
    · exact h2
  · intro d old_id new_id s h
    have h1 : dictGet (replaceInStringKey d "CFBundleIdentifier" old_id new_id)
        "WKCompanionAppBundleIdentifier" = some (.pstr s) := by
      rw [replaceInStringKey_get_ne _ _ _ _ _ (by decide), h]
    have h2 := replaceInStringKey_get_self _ "WKCompanionAppBundleIdentifier" old_id new_id s h1
    unfold set_matching_identifier
    dsimp only
    split
    · split
      · split
        · split
          · rw [dictGet_insert_ne _ _ _ _ (by decide), h2]
          · exact h2
        · exact h2
      · exact h2
    · exact h2
  · intro d old_id new_id ext attrs s hext hattrs hwk
    have hd2 : dictGet (replaceInStringKey (replaceInStringKey d "CFBundleIdentifier"
        old_id new_id) "WKCompanionAppBundleIdentifier" old_id new_id) "NSExtension"
        = some (.pdict ext) := by
      rw [replaceInStringKey_get_ne _ _ _ _ _ (by decide),
        replaceInStringKey_get_ne _ _ _ _ _ (by decide), hext]
    unfold set_matching_identifier
    dsimp only
    simp only [hd2, hattrs, hwk]
    split
    · exact ⟨_, _, dictGet_insert_self _ _ _,
        dictGet_insert_self _ _ _, dictGet_insert_self _ _ _⟩
    · next hnn =>
      have heq : s = rustReplace s old_id new_id := by
        by_contra hc
        exact hnn hc
      exact ⟨ext, attrs, hd2, hattrs, by rw [hwk, ← heq]⟩
  · intro d old_id new_id k hk1 hk2 hk3
    have hd2 : dictGet (replaceInStringKey (replaceInStringKey d "CFBundleIdentifier"
        old_id new_id) "WKCompanionAppBundleIdentifier" old_id new_id) k
        = dictGet d k := by
      rw [replaceInStringKey_get_ne _ _ _ _ _ hk2, replaceInStringKey_get_ne _ _ _ _ _ hk1]
    unfold set_matching_identifier
    dsimp only
    split
    · split
      · split
        · split
          · rw [dictGet_insert_ne _ _ _ _ hk3, hd2]
          · exact hd2
        · exact hd2
      · exact hd2
    · exact hd2

/-- C6 witness: the theorem applied at the spec's concrete example dictionary,
with every hypothesis discharged on concrete values. -/
theorem set_matching_identifier_literal_substitution_witness :
    dictGet (set_matching_identifier
        [("CFBundleIdentifier", .pstr "com.foo.app"),
         ("other", .pstr "com.foo.app.unrelated")]
        "com.foo.app" "com.foo.app.TEAMID") "CFBundleIdentifier"
      = some (.pstr "com.foo.app.TEAMID")
    ∧ dictGet (set_matching_identifier
        [("CFBundleIdentifier", .pstr "com.foo.app"),
         ("other", .pstr "com.foo.app.unrelated")]
        "com.foo.app" "com.foo.app.TEAMID") "other"
      = some (.pstr "com.foo.app.unrelated") :=
  ⟨set_matching_identifier_literal_substitution.2.1
      [("CFBundleIdentifier", .pstr "com.foo.app"),
       ("other", .pstr "com.foo.app.unrelated")]
      "com.foo.app" "com.foo.app.TEAMID" "com.foo.app" rfl,
   by
    rw [set_matching_identifier_literal_substitution.2.2.2.2
      [("CFBundleIdentifier", .pstr "com.foo.app"),
       ("other", .pstr "com.foo.app.unrelated")]
      "com.foo.app" "com.foo.app.TEAMID" "other" (by decide) (by decide) (by decide)]
    rfl⟩

theorem strictlyUnder_depth_lt {a b : MBundle} (h : strictlyUnder a.dir b.dir) :
    bundleDepth a < bundleDepth b := by
  obtain ⟨t, htne, hteq⟩ := h
  have ht : 0 < t.length := List.length_pos.mpr htne
  simp only [bundleDepth, hteq, List.length_append]
  omega

/-- C4: the `SignerMode::Default` pass orders the discovered sub-bundles
together with the root bundle by filesystem depth and signs deepest first: the
emitted order is descending in path depth, no bundle ever precedes one nested
strictly inside it (so every nested Framework and AppExtension is signed before
its container), and when every sub-bundle lies strictly under the root
directory — as bundle discovery guarantees — the root bundle is signed last. -/
theorem sign_order_deepest_first_root_last (root : MBundle) (embedded : List MBundle)
    (h : ∀ b ∈ embedded, strictlyUnder root.dir b.dir) :
    List.Pairwise (fun a b => bundleDepth b ≤ bundleDepth a) (sign_order root embedded)
    ∧ List.Pairwise (fun a b => ¬ strictlyUnder a.dir b.dir) (sign_order root embedded)
    ∧ (sign_order root embedded).getLast? = some root := by
  have hsorted : List.Sorted depthLE (List.insertionSort depthLE (embedded ++ [root])) :=
    List.sorted_insertionSort depthLE (embedded ++ [root])
  have hdesc : List.Pairwise (fun a b => bundleDepth b ≤ bundleDepth a)
      (sign_order root embedded) := by
    rw [sign_order, List.pairwise_reverse]
    exact hsorted
  refine ⟨hdesc, ?_, ?_⟩
  · exact hdesc.imp (fun hab hsu => absurd (strictlyUnder_depth_lt hsu) (by omega))
  · rw [sign_order, List.getLast?_reverse]
    cases hs : List.insertionSort depthLE (embedded ++ [root]) with
    | nil =>
      have := List.length_insertionSort depthLE (embedded ++ [root])
      rw [hs] at this
      simp at this
    | cons a rest =>
      have ha : a ∈ embedded ++ [root] := by
        have : a ∈ List.insertionSort depthLE (embedded ++ [root]) := by
          rw [hs]
          exact List.mem_cons_self a rest
        exact (List.mem_insertionSort depthLE).mp this
      rcases List.mem_append.mp ha with hmem | hmem
      · exfalso
        have hlt : bundleDepth root < bundleDepth a := strictlyUnder_depth_lt (h a hmem)
        have hrootmem : root ∈ a :: rest := by
          rw [← hs]
          exact (List.mem_insertionSort depthLE).mpr
            (List.mem_append.mpr (Or.inr (List.mem_singleton.mpr rfl)))
        rcases List.mem_cons.mp hrootmem with heq | hmem2
        · rw [← heq] at hlt
          exact absurd hlt (lt_irrefl _)
        · rw [hs] at hsorted
          have := (List.sorted_cons.mp hsorted).1 root hmem2
          exact absurd this (by simp only [depthLE]; omega)
      · simp only [List.mem_singleton] at hmem
        rw [hmem]
        rfl

/-- C4 witness: the spec's example tree — an App at depth 1 containing a
Framework and an AppExtension at depth 2 — ordered by the signing pass. -/
theorem sign_order_deepest_first_root_last_witness :
    List.Pairwise (fun a b => bundleDepth b ≤ bundleDepth a)
      (sign_order ⟨["Plume.app"], .App⟩
        [⟨["Plume.app", "Nested.framework"], .Framework⟩,
         ⟨["Plume.app", "Widget.appex"], .AppExtension⟩])
    ∧ List.Pairwise (fun a b => ¬ strictlyUnder a.dir b.dir)
      (sign_order ⟨["Plume.app"], .App⟩
        [⟨["Plume.app", "Nested.framework"], .Framework⟩,
         ⟨["Plume.app", "Widget.appex"], .AppExtension⟩])
    ∧ (sign_order ⟨["Plume.app"], .App⟩
        [⟨["Plume.app", "Nested.framework"], .Framework⟩,
         ⟨["Plume.app", "Widget.appex"], .AppExtension⟩]).getLast?
      = some ⟨["Plume.app"], .App⟩ :=
  sign_order_deepest_first_root_last ⟨["Plume.app"], .App⟩
    [⟨["Plume.app", "Nested.framework"], .Framework⟩,
     ⟨["Plume.app", "Widget.appex"], .AppExtension⟩]
    (by
      intro b hb
      rcases List.mem_cons.mp hb with heq | hb2
      · exact ⟨["Nested.framework"], by simp, by rw [heq]; rfl⟩
      · rcases List.mem_cons.mp hb2 with heq | hb3
        · exact ⟨["Widget.appex"], by simp, by rw [heq]; rfl⟩
        · exact absurd hb3 (by simp))

/-- C1 counterexample: with the portal reporting quota-exceeded (code 7460)
twice in a row for a machine label whose certificate is present both times, the
submit loop revokes and resubmits each time and then succeeds on the third
attempt — it does not terminate with a fatal error on repeated quota failures;
and with quota-exceeded reported at every attempt the loop consumes the whole
trace still retrying (three submissions, no fatal result), the unbounded
behavior the spec's design notes flag in the source. -/
theorem csr_quota_retry_not_fatal_counterexample :
    csr_submit_loop "mach"
      [⟨.errDev 7460 "quota", some [⟨"id1", "serial1", [], some "mach"⟩], true⟩,
       ⟨.errDev 7460 "quota", some [⟨"id1", "serial1", [], some "mach"⟩], true⟩,
       ⟨.ok "newid", none, true⟩]
      = (.ok "newid", 3)
    ∧ csr_submit_loop "mach"
      [⟨.errDev 7460 "quota", some [⟨"id1", "serial1", [], some "mach"⟩], true⟩,
       ⟨.errDev 7460 "quota", some [⟨"id1", "serial1", [], some "mach"⟩], true⟩,
       ⟨.errDev 7460 "quota", some [⟨"id1", "serial1", [], some "mach"⟩], true⟩]
      = (.exhausted, 3) := by
  exact ⟨rfl, rfl⟩

/-- C1 (amended): on a quota-exceeded (7460) submission failure the loop
revokes the existing certificate for this machine label and retries exactly
once per detected quota failure, but the number of quota failures it tolerates
is unbounded; it terminates fatally only when quota-exceeded is reported and no
certificate with the machine label exists (`Too many certificates`), and a
non-quota error fails immediately without retry. -/
theorem csr_submit_loop_retry_behavior (machine_name : String) (r : QuotaRound)
    (rest : List QuotaRound) :
    (∀ cid, r.submit = .ok cid → csr_submit_loop machine_name (r :: rest) = (.ok cid, 1))
    ∧ (∀ code msg certs target, r.submit = .errDev code msg → code = 7460 →
        r.listCerts = some certs →
        certs.find? (fun c => c.machine_name = some machine_name) = some target →
        r.revokeOk = true →
        csr_submit_loop machine_name (r :: rest)
          = ((csr_submit_loop machine_name rest).1, (csr_submit_loop machine_name rest).2 + 1))
    ∧ (∀ code msg certs, r.submit = .errDev code msg → code = 7460 →
        r.listCerts = some certs →
        certs.find? (fun c => c.machine_name = some machine_name) = none →
        csr_submit_loop machine_name (r :: rest) = (.tooManyCertificates, 1))
    ∧ (∀ code msg, r.submit = .errDev code msg → code ≠ 7460 →
        csr_submit_loop machine_name (r :: rest) = (.submitFailed, 1)) := by
  refine ⟨?_, ?_, ?_, ?_⟩
  · intro cid hok
    simp [csr_submit_loop, hok]
  · intro code msg certs target hsub hcode hlist hfind hrev
    subst hcode
    simp [csr_submit_loop, hsub, hlist, hfind, hrev]
  · intro code msg certs hsub hcode hlist hfind
    subst hcode
    simp [csr_submit_loop, hsub, hlist, hfind]
  · intro code msg hsub hcode
    simp [csr_submit_loop, hsub, hcode]

/-- C1 witness: one quota failure with the machine-label certificate present
triggers exactly one revoke-and-retry step. -/
theorem csr_submit_loop_retry_behavior_witness :
    csr_submit_loop "m" [⟨.errDev 7460 "q", some [⟨"i", "s", [], some "m"⟩], true⟩]
      = ((csr_submit_loop "m" []).1, (csr_submit_loop "m" []).2 + 1) :=
  (csr_submit_loop_retry_behavior "m" ⟨.errDev 7460 "q", some [⟨"i", "s", [], some "m"⟩], true⟩ []).2.1
    7460 "q" [⟨"i", "s", [], some "m"⟩] ⟨"i", "s", [], some "m"⟩ rfl rfl rfl rfl rfl

theorem findSome_filter_unique (chk : PortalCert → Option ParsedCert)
    (p : PortalCert → Bool) (cert : ParsedCert) :
    ∀ (certs : List PortalCert) (c : PortalCert), c ∈ certs → p c = true →
      chk c = some cert →
      (∀ c2 ∈ certs, p c2 = true → c2 ≠ c → chk c2 = none) →
      (certs.filter p).findSome? chk = some cert := by
  intro certs
  induction certs with
  | nil =>
    intro c hmem _ _ _
    exact absurd hmem (List.not_mem_nil c)
  | cons a rest ih =>
    intro c hmem hp hchk huniq
    rcases List.mem_cons.mp hmem with heq | hmem2
    · subst heq
      rw [List.filter_cons, if_pos hp, List.findSome?_cons, hchk]
    · by_cases ha : p a = true
      · by_cases hac : a = c
        · rw [hac] at ha ⊢
          rw [List.filter_cons, if_pos hp, List.findSome?_cons, hchk]
        · have hnone : chk a = none :=
            huniq a (List.mem_cons_self a rest) ha hac
          rw [List.filter_cons, if_pos ha, List.findSome?_cons, hnone]
          exact ih c hmem2 hp hchk
            (fun c2 h2 hl hne => huniq c2 (List.mem_cons_of_mem a h2) hl hne)
      · rw [List.filter_cons, if_neg ha]
        exact ih c hmem2 hp hchk
          (fun c2 h2 hl hne => huniq c2 (List.mem_cons_of_mem a h2) hl hne)

theorem findSome_filter_none (chk : PortalCert → Option ParsedCert)
    (p : PortalCert → Bool) :
    ∀ certs : List PortalCert, (∀ c2 ∈ certs, p c2 = true → chk c2 = none) →
      (certs.filter p).findSome? chk = none := by
  intro certs
  induction certs with
  | nil =>
    intro _
    rfl
  | cons a rest ih =>
    intro hnone
    by_cases ha : p a = true
    · rw [List.filter_cons, if_pos ha, List.findSome?_cons,
        hnone a (List.mem_cons_self a rest) ha]
      exact ih (fun c2 h2 hl => hnone c2 (List.mem_cons_of_mem a h2) hl)
    · rw [List.filter_cons, if_neg ha]
      exact ih (fun c2 h2 hl => hnone c2 (List.mem_cons_of_mem a h2) hl)

/-- C8: certificate resolution filters the team's portal certificates to those
tagged with this machine's label and byte-compares each one's decoded PKCS#1
public key against the local key, first match winning: when exactly one
certificate matches both the label and the key bytes, `new` returns it with no
CSR submitted; when no certificate matches, exactly one CSR is issued (the
first submission succeeding, i.e. absent quota failures). -/
theorem certificate_resolution_first_match_or_single_csr {K : Type}
    (parse : List Nat → Option ParsedCert) (fromPkcs1 : List Nat → Option K)
    (toPkcs1 : K → List Nat) (machine_name : String) (our_pub : List Nat)
    (certs : List PortalCert) (rounds : List QuotaRound) :
    (∀ c cert, c ∈ certs → c.machine_name = some machine_name →
      checkCertKey parse fromPkcs1 toPkcs1 our_pub c = some cert →
      (∀ c2 ∈ certs, c2.machine_name = some machine_name → c2 ≠ c →
        checkCertKey parse fromPkcs1 toPkcs1 our_pub c2 = none) →
      certificate_identity_new parse fromPkcs1 toPkcs1 machine_name our_pub certs rounds
        = (.found cert, 0))
    ∧ (∀ cid r rest, rounds = r :: rest → r.submit = .ok cid →
        (∀ c2 ∈ certs, c2.machine_name = some machine_name →
          checkCertKey parse fromPkcs1 toPkcs1 our_pub c2 = none) →
        certificate_identity_new parse fromPkcs1 toPkcs1 machine_name our_pub certs rounds
          = (.issued cid, 1)) := by
  constructor
  · intro c cert hmem hlabel hchk huniq
    have hfind : find_matching_certificate parse fromPkcs1 toPkcs1 machine_name our_pub certs
        = some cert := by
      unfold find_matching_certificate
      exact findSome_filter_unique _ _ cert certs c hmem (by simp [hlabel]) hchk
        (fun c2 h2 hl hne => huniq c2 h2 (by simpa using hl) hne)
    unfold certificate_identity_new
    rw [hfind]
  · intro cid r rest hrounds hok hnone
    have hfind : find_matching_certificate parse fromPkcs1 toPkcs1 machine_name our_pub certs
        = none := by
      unfold find_matching_certificate
      exact findSome_filter_none _ _ certs
        (fun c2 h2 hl => hnone c2 h2 (by simpa using hl))
    unfold certificate_identity_new
    rw [hfind, hrounds]
    simp [csr_submit_loop, hok]

/-- C8 witness: a single portal certificate carrying our key bytes under the
machine label is returned with zero CSRs, and with no certificates at all one
successful submission issues exactly one CSR. -/
theorem certificate_resolution_first_match_or_single_csr_witness :
    certificate_identity_new (fun content => some ⟨content⟩)
      (fun b => some b) (fun k => k) "m" [5]
      [⟨"idA", "serA", [0, 5], some "m"⟩] [] = (.found ⟨[0, 5]⟩, 0)
    ∧ certificate_identity_new (fun content => some ⟨content⟩)
      (fun b => some b) (fun k => k) "m" [5]
      [] [⟨.ok "cid1", none, true⟩] = (.issued "cid1", 1) :=
  ⟨(certificate_resolution_first_match_or_single_csr (fun content => some ⟨content⟩)
      (fun b => some b) (fun k => k) "m" [5]
      [⟨"idA", "serA", [0, 5], some "m"⟩] []).1
      ⟨"idA", "serA", [0, 5], some "m"⟩ ⟨[0, 5]⟩
      (List.mem_cons_self _ _) rfl rfl
      (fun c2 h2 _ hne => absurd (by simpa using h2) hne),
   (certificate_resolution_first_match_or_single_csr (fun content => some ⟨content⟩)
      (fun b => some b) (fun k => k) "m" [5]
      [] [⟨.ok "cid1", none, true⟩]).2
      "cid1" ⟨.ok "cid1", none, true⟩ [] rfl rfl
      (fun c2 h2 => absurd h2 (List.not_mem_nil c2))⟩

/-- C3 counterexample: `login_email_pass` does not return on every server
response — a first-round response missing the salt (and even the `ec` field)
panics via `unwrap()`, and a well-formed exchange whose server proof fails
verification panics too, instead of yielding an authentication error. -/
theorem login_email_pass_panics_counterexample :
    login_email_pass true (fun _ => true) (fun _ => some []) [] [] = .panic
    ∧ login_email_pass true (fun _ => false) (fun _ => some [])
        [("ec", .pint 0), ("s", .pdata []), ("B", .pdata []),
         ("i", .pint 1), ("c", .pstr "sid")]
        [("ec", .pint 0), ("M2", .pdata [1])] = .panic
    ∧ LoginOutcome.panic ≠ .err (.authSrpWithMessage 0 "") :=
  ⟨rfl, rfl, by decide⟩

/-- C3 (amended): a nonzero embedded error code whose message field is present
yields, in either round, an authentication error carrying the server's numeric
code and message; but a malformed or missing response field (salt shown here)
or a failing server proof makes `login_email_pass` panic on an `unwrap()`
rather than return an error. -/
theorem login_email_pass_error_code_behavior
    (process_reply_ok : Bool) (verify_server : List Nat → Bool)
    (decrypt_parse : List Nat → Option PDict) (res1 res2 : PDict) :
    (∀ ec em, check_error res1 = .fail ec em →
      login_email_pass process_reply_ok verify_server decrypt_parse res1 res2
        = .err (.authSrpWithMessage ec em))
    ∧ (check_error res1 = .ok →
        (dictGet res1 "s").bind PValue.asData? = none →
        login_email_pass process_reply_ok verify_server decrypt_parse res1 res2 = .panic)
    ∧ (∀ salt b_pub iters sid ec em,
        check_error res1 = .ok →
        (dictGet res1 "s").bind PValue.asData? = some salt →
        (dictGet res1 "B").bind PValue.asData? = some b_pub →
        (dictGet res1 "i").bind PValue.asInt? = some iters →
        (dictGet res1 "c").bind PValue.asStr? = some sid →
        process_reply_ok = true →
        check_error res2 = .fail ec em →
        login_email_pass process_reply_ok verify_server decrypt_parse res1 res2
          = .err (.authSrpWithMessage ec em))
    ∧ (∀ salt b_pub iters sid m2,
        check_error res1 = .ok →
        (dictGet res1 "s").bind PValue.asData? = some salt →
        (dictGet res1 "B").bind PValue.asData? = some b_pub →
        (dictGet res1 "i").bind PValue.asInt? = some iters →
        (dictGet res1 "c").bind PValue.asStr? = some sid →
        process_reply_ok = true →
        check_error res2 = .ok →
        (dictGet res2 "M2").bind PValue.asData? = some m2 →
        verify_server m2 = false →
        login_email_pass process_reply_ok verify_server decrypt_parse res1 res2
          = .panic) := by
  refine ⟨?_, ?_, ?_, ?_⟩
  · intro ec em h
    simp [login_email_pass, h]
  · intro h1 hs
    simp [login_email_pass, h1, hs]
  · intro salt b_pub iters sid ec em h1 hs hb hi hc hp h2
    simp [login_email_pass, h1, hs, hb, hi, hc, hp, h2]
  · intro salt b_pub iters sid m2 h1 hs hb hi hc hp h2 hm2 hv
    simp [login_email_pass, h1, hs, hb, hi, hc, hp, h2, hm2, hv]

/-- C3 witness: a concrete first-round response carrying a nonzero error code
and message returns the authentication error with that code and message. -/
theorem login_email_pass_error_code_behavior_witness :
    login_email_pass true (fun _ => true) (fun _ => some [])
      [("ec", .pint (-20101)), ("em", .pstr "bad password")] []
      = .err (.authSrpWithMessage (-20101) "bad password") :=
  (login_email_pass_error_code_behavior true (fun _ => true) (fun _ => some [])
    [("ec", .pint (-20101)), ("em", .pstr "bad password")] []).1
    (-20101) "bad password" rfl

/-- C9 counterexample: the secondary-auth marker is read from the second-round
response's `Status` dictionary, not from the decrypted payload — here the
decrypted payload carries the marker `secondaryAuth`, yet because `Status` has
no `au` entry the login returns `LoggedIn` instead of `NeedsSMS2FA`. -/
theorem login_state_marker_source_counterexample :
    login_email_pass true (fun _ => true) (fun _ => some [("au", .pstr "secondaryAuth")])
      [("ec", .pint 0), ("s", .pdata []), ("B", .pdata []),
       ("i", .pint 1), ("c", .pstr "sid")]
      [("Status", .pdict [("ec", .pint 0)]), ("M2", .pdata []), ("spd", .pdata [7])]
      = .state .LoggedIn
    ∧ dictGet [("au", PValue.pstr "secondaryAuth")] "au" = some (.pstr "secondaryAuth")
    ∧ LoginState.LoggedIn ≠ LoginState.NeedsSMS2FA :=
  ⟨rfl, rfl, by decide⟩

/-- C9 (amended): after a successful SRP exchange the returned `LoginState` is
determined by the `au` marker of the second-round response's `Status`
dictionary (not the decrypted payload): `trustedDeviceSecondaryAuth` yields
`NeedsDevice2FA`, `secondaryAuth` yields `NeedsSMS2FA`, any other marker string
yields `NeedsExtraStep` carrying it, and absence of the marker yields
`LoggedIn`. -/
theorem login_state_marker_mapping
    (process_reply_ok : Bool) (verify_server : List Nat → Bool)
    (decrypt_parse : List Nat → Option PDict) (res1 res2 : PDict) :
    (∀ salt b_pub iters sid m2 spd spdDict status,
        check_error res1 = .ok →
        (dictGet res1 "s").bind PValue.asData? = some salt →
        (dictGet res1 "B").bind PValue.asData? = some b_pub →
        (dictGet res1 "i").bind PValue.asInt? = some iters →
        (dictGet res1 "c").bind PValue.asStr? = some sid →
        process_reply_ok = true →
        check_error res2 = .ok →
        (dictGet res2 "M2").bind PValue.asData? = some m2 →
        verify_server m2 = true →
        (dictGet res2 "spd").bind PValue.asData? = some spd →
        decrypt_parse spd = some spdDict →
        dictGet res2 "Status" = some (.pdict status) →
        login_email_pass process_reply_ok verify_server decrypt_parse res1 res2
          = .state (login_state_from_status status))
    ∧ (∀ status : PDict,
        (dictGet status "au" = some (.pstr "trustedDeviceSecondaryAuth") →
          login_state_from_status status = .NeedsDevice2FA)
        ∧ (dictGet status "au" = some (.pstr "secondaryAuth") →
          login_state_from_status status = .NeedsSMS2FA)
        ∧ (∀ s, dictGet status "au" = some (.pstr s) →
            s ≠ "trustedDeviceSecondaryAuth" → s ≠ "secondaryAuth" →
            login_state_from_status status = .NeedsExtraStep s)
        ∧ (dictGet status "au" = none → login_state_from_status status = .LoggedIn)) := by
  constructor
  · intro salt b_pub iters sid m2 spd spdDict status h1 hs hb hi hc hp h2 hm2 hv hspd hdec hst
    simp [login_email_pass, h1, hs, hb, hi, hc, hp, h2, hm2, hv, hspd, hdec, hst]
  · intro status
    refine ⟨?_, ?_, ?_, ?_⟩
    · intro h
      simp [login_state_from_status, h]
    · intro h
      simp [login_state_from_status, h]
    · intro s h hne1 hne2
      simp [login_state_from_status, h, hne1, hne2]
    · intro h
      simp [login_state_from_status, h]

/-- C9 witness: a second-round `Status` dictionary carrying
`au = "secondaryAuth"` makes the concrete login return `NeedsSMS2FA`. -/
theorem login_state_marker_mapping_witness :
    login_email_pass true (fun _ => true) (fun _ => some [])
      [("ec", .pint 0), ("s", .pdata []), ("B", .pdata []),
       ("i", .pint 1), ("c", .pstr "sid")]
      [("Status", .pdict [("ec", .pint 0), ("au", .pstr "secondaryAuth")]),
       ("M2", .pdata []), ("spd", .pdata [])]
      = .state (login_state_from_status [("ec", .pint 0), ("au", .pstr "secondaryAuth")])
    ∧ login_state_from_status [("ec", .pint 0), ("au", .pstr "secondaryAuth")]
      = .NeedsSMS2FA :=
  ⟨(login_state_marker_mapping true (fun _ => true) (fun _ => some [])
      [("ec", .pint 0), ("s", .pdata []), ("B", .pdata []),
       ("i", .pint 1), ("c", .pstr "sid")]
      [("Status", .pdict [("ec", .pint 0), ("au", .pstr "secondaryAuth")]),
       ("M2", .pdata []), ("spd", .pdata [])]).1
      [] [] 1 "sid" [] [] [] [("ec", .pint 0), ("au", .pstr "secondaryAuth")]
      rfl rfl rfl rfl rfl rfl rfl rfl rfl rfl rfl rfl,
   ((login_state_marker_mapping true (fun _ => true) (fun _ => some [])
      [] []).2 [("ec", .pint 0), ("au", .pstr "secondaryAuth")]).2.1 rfl⟩

/-- C5: `get_app_token` parses the encrypted token as a 3-byte magic header
(`"XYZ"`), a 16-byte IV, and ciphertext plus tag, and hands AES-256-GCM exactly
the session key, that IV, and the 3-byte header as associated data; a wrong
magic header is an error, a failed authentication (no plaintext) is an error
with no fallback, a token is produced only when the AEAD accepted the input,
and — given the AEAD contract that only the genuine ciphertext authenticates —
any tampering with the ciphertext or tag bytes yields an error, never a
token. -/
theorem get_app_token_authenticated_decryption
    (gcm_open : List Nat → List Nat → List Nat → List Nat → Option (List Nat))
    (parse_plist : List Nat → Option PDict) (sk et : List Nat) (app_name : String) :
    (35 ≤ et.length → et.take 3 ≠ [88, 89, 90] →
      get_app_token gcm_open parse_plist sk et app_name
        = .err (.authSrpWithMessage 0 "Encrypted token is in an unknown format."))
    ∧ (35 ≤ et.length → sk.length = 32 → et.take 3 = [88, 89, 90] →
        gcm_open sk ((et.drop 3).take 16) (et.take 3) (et.drop 19) = none →
        get_app_token gcm_open parse_plist sk et app_name
          = .err (.authSrpWithMessage 0 "Failed to decrypt app token (Botan AES-256/GCM)."))
    ∧ (∀ tok, get_app_token gcm_open parse_plist sk et app_name = .ok tok →
        ∃ buf, gcm_open sk ((et.drop 3).take 16) (et.take 3) (et.drop 19) = some buf
          ∧ parse_plist buf ≠ none)
    ∧ (∀ et2, et2.take 19 = et.take 19 → et2.drop 19 ≠ et.drop 19 →
        35 ≤ et2.length → 35 ≤ et.length → sk.length = 32 →
        et.take 3 = [88, 89, 90] →
        (∀ c, c ≠ et.drop 19 → gcm_open sk ((et.drop 3).take 16) (et.take 3) c = none) →
        get_app_token gcm_open parse_plist sk et2 app_name
          = .err (.authSrpWithMessage 0 "Failed to decrypt app token (Botan AES-256/GCM).")) := by
  have hsplit : ∀ l : List Nat, (l.drop 3).take 16 = (l.take 19).drop 3 := by
    intro l
    rw [List.take_drop, List.drop_take]
  refine ⟨?_, ?_, ?_, ?_⟩
  · intro h35 hne
    unfold get_app_token
    rw [if_neg (by omega)]
    dsimp only
    rw [if_pos hne]
  · intro h35 hsk hmagic hgcm
    unfold get_app_token
    rw [if_neg (by omega)]
    dsimp only
    rw [if_neg (fun hc => hc hmagic),
      if_neg (fun hc => hc hsk),
      if_neg (by rw [List.length_take, List.length_drop]; omega),
      hgcm]
  · intro tok h
    unfold get_app_token at h
    dsimp only at h
    split at h
    · exact absurd h (by simp)
    · split at h
      · exact absurd h (by simp)
      · split at h
        · exact absurd h (by simp)
        · split at h
          · exact absurd h (by simp)
          · split at h
            · exact absurd h (by simp)
            · next buf hbuf =>
              refine ⟨buf, hbuf, ?_⟩
              split at h
              · exact absurd h (by simp)
              · next d hd =>
                rw [hd]
                simp
  · intro et2 htake hdrop h35b h35 hsk hmagic hauth
    have e1 : (et2.take 19).take 3 = et2.take 3 := by
      rw [List.take_take]
      norm_num
    have e2 : (et.take 19).take 3 = et.take 3 := by
      rw [List.take_take]
      norm_num
    have htake3 : et2.take 3 = et.take 3 := by
      rw [← e1, htake, e2]
    have hiv : (et2.drop 3).take 16 = (et.drop 3).take 16 := by
      rw [hsplit et2, hsplit et, htake]
    unfold get_app_token
    rw [if_neg (by omega)]
    dsimp only
    rw [if_neg (fun hc => hc (htake3.trans hmagic)),
      if_neg (fun hc => hc hsk),
      if_neg (by rw [List.length_take, List.length_drop]; omega),
      htake3, hiv, hauth (et2.drop 19) hdrop]

/-- C5 witness: a 35-byte token with the correct magic whose AEAD rejects the
ciphertext (every byte tampered) yields the decryption error. -/
theorem get_app_token_authenticated_decryption_witness :
    get_app_token (fun _ _ _ _ => none) (fun _ => none)
      (List.replicate 32 7)
      ([88, 89, 90] ++ List.replicate 16 0 ++ List.replicate 16 1) "svc"
      = .err (.authSrpWithMessage 0 "Failed to decrypt app token (Botan AES-256/GCM).") :=
  (get_app_token_authenticated_decryption (fun _ _ _ _ => none) (fun _ => none)
    (List.replicate 32 7)
    ([88, 89, 90] ++ List.replicate 16 0 ++ List.replicate 16 1) "svc").2.1
    (by decide) (by decide) (by decide) rfl

theorem nat_xor_cancel (m n : Nat) : Nat.xor (Nat.xor m n) n = m :=
  Nat.xor_cancel_right n m

theorem xorBytes_cancel : ∀ (a b : List Nat), a.length = b.length →
    xorBytes (xorBytes a b) b = a := by
  intro a
  induction a with
  | nil =>
    intro b _
    rfl
  | cons x xs ih =>
    intro b h
    cases b with
    | nil => simp at h
    | cons y ys =>
      have h2 : xs.length = ys.length := by simpa using h
      simp only [xorBytes] at ih ⊢
      rw [List.zipWith_cons_cons, List.zipWith_cons_cons, nat_xor_cancel, ih ys h2]

theorem toBlocksAux_congr : ∀ (f1 : Nat) (l : List Nat) (f2 : Nat),
    l.length ≤ f1 → l.length ≤ f2 → toBlocksAux f1 l = toBlocksAux f2 l := by
  intro f1
  induction f1 with
  | zero =>
    intro l f2 h1 _
    have hl : l = [] := List.length_eq_zero.mp (by omega)
    subst hl
    cases f2 <;> rfl
  | succ n ih =>
    intro l f2 h1 h2
    cases l with
    | nil => cases f2 <;> rfl
    | cons c rest =>
      cases f2 with
      | zero => simp at h2
      | succ m =>
        show (c :: rest).take 16 :: toBlocksAux n ((c :: rest).drop 16)
          = (c :: rest).take 16 :: toBlocksAux m ((c :: rest).drop 16)
        rw [ih ((c :: rest).drop 16) m
          (by simp only [List.length_drop, List.length_cons] at h1 ⊢; omega)
          (by simp only [List.length_drop, List.length_cons] at h2 ⊢; omega)]

theorem toBlocks_cons (c : Nat) (rest : List Nat) :
    toBlocks (c :: rest) = (c :: rest).take 16 :: toBlocks ((c :: rest).drop 16) := by
  show (c :: rest).take 16 :: toBlocksAux rest.length ((c :: rest).drop 16)
    = (c :: rest).take 16 :: toBlocksAux ((c :: rest).drop 16).length ((c :: rest).drop 16)
  rw [toBlocksAux_congr rest.length ((c :: rest).drop 16) ((c :: rest).drop 16).length
    (by simp only [List.length_drop, List.length_cons]; omega) (le_refl _)]

theorem toBlocks_all_16_aux : ∀ (n : Nat) (l : List Nat), l.length ≤ n → 16 ∣ l.length →
    ∀ b ∈ toBlocks l, b.length = 16 := by
  intro n
  induction n with
  | zero =>
    intro l h _ b hb
    have hl : l = [] := List.length_eq_zero.mp (by omega)
    subst hl
    simp [toBlocks, toBlocksAux] at hb
  | succ m ih =>
    intro l h hd b hb
    cases l with
    | nil => simp [toBlocks, toBlocksAux] at hb
    | cons c rest =>
      have hlen : 16 ≤ (c :: rest).length := Nat.le_of_dvd (by simp) hd
      rw [toBlocks_cons] at hb
      rcases List.mem_cons.mp hb with heq | hb2
      · rw [heq, List.length_take]
        simp only [List.length_cons] at hlen ⊢
        omega
      · apply ih ((c :: rest).drop 16)
          (by simp only [List.length_drop, List.length_cons] at *; omega)
          (by
            rw [List.length_drop]
            exact Nat.dvd_sub' hd (dvd_refl 16))
          b hb2

theorem toBlocks_all_16 (l : List Nat) (hd : 16 ∣ l.length) :
    ∀ b ∈ toBlocks l, b.length = 16 :=
  toBlocks_all_16_aux l.length l (le_refl _) hd

theorem fromBlocks_toBlocks_aux : ∀ (n : Nat) (l : List Nat), l.length ≤ n →
    fromBlocks (toBlocks l) = l := by
  intro n
  induction n with
  | zero =>
    intro l h
    have hl : l = [] := List.length_eq_zero.mp (by omega)
    subst hl
    rfl
  | succ m ih =>
    intro l h
    cases l with
    | nil => rfl
    | cons c rest =>
      rw [toBlocks_cons]
      show (c :: rest).take 16 ++ fromBlocks (toBlocks ((c :: rest).drop 16)) = c :: rest
      rw [ih ((c :: rest).drop 16)
        (by simp only [List.length_drop, List.length_cons] at *; omega)]
      exact List.take_append_drop 16 (c :: rest)

theorem fromBlocks_toBlocks (l : List Nat) : fromBlocks (toBlocks l) = l :=
  fromBlocks_toBlocks_aux l.length l (le_refl _)

theorem toBlocks_fromBlocks : ∀ (bs : List (List Nat)), (∀ b ∈ bs, b.length = 16) →
    toBlocks (fromBlocks bs) = bs := by
  intro bs
  induction bs with
  | nil =>
    intro _
    rfl
  | cons b rest ih =>
    intro h
    have hb : b.length = 16 := h b (List.mem_cons_self b rest)
    show toBlocks (b ++ fromBlocks rest) = b :: rest
    cases b with
    | nil => simp at hb
    | cons c btail =>
      rw [List.cons_append, toBlocks_cons, ← List.cons_append]
      congr 1
      · exact List.take_left' hb
      · rw [List.drop_left' hb]
        exact ih (fun q hq => h q (List.mem_cons_of_mem _ hq))

theorem fromBlocks_dvd : ∀ (bs : List (List Nat)), (∀ b ∈ bs, b.length = 16) →
    16 ∣ (fromBlocks bs).length := by
  intro bs
  induction bs with
  | nil =>
    intro _
    exact Dvd.intro 0 rfl
  | cons b rest ih =>
    intro h
    show 16 ∣ (b ++ fromBlocks rest).length
    rw [List.length_append, h b (List.mem_cons_self b rest)]
    exact Nat.dvd_add (dvd_refl 16) (ih (fun q hq => h q (List.mem_cons_of_mem b hq)))

theorem cbcEncryptBlocks_all_16 (encB : List Nat → List Nat)
    (hLen : ∀ b, (encB b).length = b.length) :
    ∀ (ps : List (List Nat)) (iv : List Nat), iv.length = 16 →
      (∀ p ∈ ps, p.length = 16) →
      ∀ c ∈ cbcEncryptBlocks encB iv ps, c.length = 16 := by
  intro ps
  induction ps with
  | nil =>
    intro iv _ _ c hc
    simp [cbcEncryptBlocks] at hc
  | cons p rest ih =>
    intro iv hiv hall c hc
    have hp : p.length = 16 := hall p (List.mem_cons_self p rest)
    have hc16 : (encB (xorBytes p iv)).length = 16 := by
      rw [hLen, xorBytes, List.length_zipWith, hp, hiv]
      omega
    rcases List.mem_cons.mp hc with heq | hc2
    · rw [heq]
      exact hc16
    · exact ih (encB (xorBytes p iv)) hc16
        (fun q hq => hall q (List.mem_cons_of_mem p hq)) c hc2

theorem cbcDecryptBlocks_cbcEncryptBlocks (encB decB : List Nat → List Nat)
    (hInv : ∀ b, decB (encB b) = b) (hLen : ∀ b, (encB b).length = b.length) :
    ∀ (ps : List (List Nat)) (iv : List Nat), iv.length = 16 →
      (∀ p ∈ ps, p.length = 16) →
      cbcDecryptBlocks decB iv (cbcEncryptBlocks encB iv ps) = ps := by
  intro ps
  induction ps with
  | nil =>
    intro iv _ _
    rfl
  | cons p rest ih =>
    intro iv hiv hall
    have hp : p.length = 16 := hall p (List.mem_cons_self p rest)
    show xorBytes (decB (encB (xorBytes p iv))) iv
        :: cbcDecryptBlocks decB (encB (xorBytes p iv))
            (cbcEncryptBlocks encB (encB (xorBytes p iv)) rest)
      = p :: rest
    rw [hInv, xorBytes_cancel p iv (by omega)]
    congr 1
    exact ih (encB (xorBytes p iv))
      (by rw [hLen, xorBytes, List.length_zipWith, hp, hiv]; omega)
      (fun q hq => hall q (List.mem_cons_of_mem p hq))

theorem pkcs7Unpad_pkcs7Pad (m : List Nat) : pkcs7Unpad (pkcs7Pad m) = some m := by
  have hr : m.length % 16 < 16 := Nat.mod_lt _ (by omega)
  have hpad : pkcs7Pad m
      = m ++ List.replicate (16 - m.length % 16) (16 - m.length % 16) := rfl
  rw [hpad]
  have hlast : (m ++ List.replicate (16 - m.length % 16) (16 - m.length % 16)).getLast?
      = some (16 - m.length % 16) := by
    rw [List.getLast?_append, List.getLast?_replicate, if_neg (by omega)]
    rfl
  have hlen : (m ++ List.replicate (16 - m.length % 16) (16 - m.length % 16)).length
      = m.length + (16 - m.length % 16) := by
    rw [List.length_append, List.length_replicate]
  unfold pkcs7Unpad
  simp only [hlast]
  rw [if_neg (by rw [hlen]; omega)]
  have hsub : (m ++ List.replicate (16 - m.length % 16) (16 - m.length % 16)).length
      - (16 - m.length % 16) = m.length := by
    rw [hlen]
    omega
  rw [hsub, List.drop_left' rfl]
  rw [if_pos (by
    rw [List.all_eq_true]
    intro x hx
    have hxq := (List.mem_replicate.mp hx).2
    simp [hxq])]
  rw [List.take_left' rfl]

/-- C7: session-payload decryption derives the AES-256-CBC key as HMAC-SHA256
of the SRP shared secret over `"extra data key:"` and the IV as the first 16
bytes of the analogous `"extra data iv:"` derivation, then strips PKCS7
padding; for every SRP shared secret and plaintext, encrypting with these
derived parameters and applying `decrypt_cbc` returns the original plaintext,
given the block-cipher contract (decryption inverts encryption, block length
preserved) and that HMAC-SHA256 yields 32-byte digests. -/
theorem decrypt_cbc_roundtrip (hmac : List Nat → String → List Nat)
    (encB decB : List Nat → List Nat → List Nat)
    (hInv : ∀ k b, decB k (encB k b) = b)
    (hLen : ∀ k b, (encB k b).length = b.length)
    (hH : ∀ k s, (hmac k s).length = 32)
    (srp_key plaintext : List Nat) :
    decrypt_cbc hmac decB srp_key (encrypt_cbc hmac encB srp_key plaintext)
      = some plaintext := by
  unfold decrypt_cbc encrypt_cbc
  dsimp only
  have hiv : ((create_session_key hmac srp_key "extra data iv:").take 16).length = 16 := by
    rw [List.length_take, create_session_key, hH]
    omega
  have hpadDvd : 16 ∣ (pkcs7Pad plaintext).length := by
    unfold pkcs7Pad
    rw [List.length_append, List.length_replicate]
    have : plaintext.length % 16 < 16 := Nat.mod_lt _ (by omega)
    omega
  have hpadBlocks : ∀ b ∈ toBlocks (pkcs7Pad plaintext), b.length = 16 :=
    toBlocks_all_16 _ hpadDvd
  have hctBlocks : ∀ c ∈ cbcEncryptBlocks (encB (create_session_key hmac srp_key "extra data key:"))
      ((create_session_key hmac srp_key "extra data iv:").take 16)
      (toBlocks (pkcs7Pad plaintext)), c.length = 16 :=
    cbcEncryptBlocks_all_16 _ (hLen _) _ _ hiv hpadBlocks
  have hctDvd := fromBlocks_dvd _ hctBlocks
  rw [if_pos (by omega)]
  rw [toBlocks_fromBlocks _ hctBlocks]
  rw [cbcDecryptBlocks_cbcEncryptBlocks _ _ (hInv _) (hLen _) _ _ hiv hpadBlocks]
  rw [fromBlocks_toBlocks]
  exact pkcs7Unpad_pkcs7Pad plaintext

/-- C7 witness: the round trip evaluated with a concrete (identity) block
cipher, a constant 32-byte HMAC, and plaintext `[1, 2, 3]`. -/
theorem decrypt_cbc_roundtrip_witness :
    decrypt_cbc (fun _ _ => List.replicate 32 0) (fun _ b => b) (List.replicate 32 9)
      (encrypt_cbc (fun _ _ => List.replicate 32 0) (fun _ b => b)
        (List.replicate 32 9) [1, 2, 3])
      = some [1, 2, 3] :=
  decrypt_cbc_roundtrip (fun _ _ => List.replicate 32 0) (fun _ b => b) (fun _ b => b)
    (fun _ _ => rfl) (fun _ _ => rfl) (fun _ _ => by simp)
    (List.replicate 32 9) [1, 2, 3]

theorem replace_wildcard_keeps_provision_data (p : MobileProvision) (id : String) :
    (replace_wildcard_in_entitlements p id).provision_data = p.provision_data := rfl

theorem merge_entitlements_keeps_provision_data (p : MobileProvision)
    (bents : Option PDict) (p2 : MobileProvision)
    (h : merge_entitlements p bents = some p2) :
    p2.provision_data = p.provision_data := by
  cases bents with
  | none => exact absurd h (by simp [merge_entitlements])
  | some b =>
    simp only [merge_entitlements] at h
    injection h with h2
    rw [← h2]

theorem embed_mutated_keeps_provision_data (bid : Option String) (bents : Option PDict)
    (p0 : MobileProvision) :
    (embed_mutated bid bents p0).provision_data = p0.provision_data := by
  unfold embed_mutated
  dsimp only
  cases hm : merge_entitlements
      (match bid with
       | some b => replace_wildcard_in_entitlements p0 b
       | none => p0) bents with
  | none =>
    cases bid with
    | none => rfl
    | some b => exact replace_wildcard_keeps_provision_data p0 b
  | some p2 =>
    rw [merge_entitlements_keeps_provision_data _ _ _ hm]
    cases bid with
    | none => rfl
    | some b => exact replace_wildcard_keeps_provision_data p0 b

theorem sign_embed_unfold (bundle_type : BundleType) (bid : Option String)
    (bents : Option PDict) (p0 : MobileProvision) (provs : List MobileProvision)
    (htype : bundle_type = .AppExtension ∨ bundle_type = .App)
    (hne : provs ≠ [])
    (hsel : select_provisioning bid provs = some p0) :
    sign_single_bundle_embed bundle_type bid bents provs
      = (some p0.provision_data, (embed_mutated bid bents p0).entitlements) := by
  unfold sign_single_bundle_embed
  rw [if_pos htype]
  cases provs with
  | nil => exact absurd rfl hne
  | cons q rest =>
    dsimp only
    rw [hsel]
    have hpair : (some (embed_mutated bid bents p0).provision_data,
        (embed_mutated bid bents p0).entitlements)
        = (some p0.provision_data, (embed_mutated bid bents p0).entitlements) := by
      rw [embed_mutated_keeps_provision_data]
    exact hpair

/-- C2 counterexample: the bytes written to `embedded.mobileprovision` are the
raw `provision_data` as loaded, not a post-mutation serialization — here the
wildcard substitution changes the in-memory entitlements (the `*` becomes the
concrete identifier in the dictionary handed to the signing settings), yet the
bytes written are exactly the `[1, 2, 3]` the profile was loaded with. -/
theorem embedded_profile_bytes_counterexample :
    (sign_single_bundle_embed .App (some "com.x") none
      [⟨[1, 2, 3], .pdict [], [("application-identifier", .pstr "TEAMID.*")]⟩]).1
      = some [1, 2, 3]
    ∧ (sign_single_bundle_embed .App (some "com.x") none
      [⟨[1, 2, 3], .pdict [], [("application-identifier", .pstr "TEAMID.*")]⟩]).2
      = [("application-identifier", .pstr "TEAMID.com.x")]
    ∧ ("TEAMID.com.x" : String) ≠ "TEAMID.*" :=
  ⟨rfl, rfl, by decide⟩

/-- C2 (amended): `sign_single_bundle` writes the selected profile's
`provision_data` unchanged from load into `embedded.mobileprovision` — the
wildcard substitution and keychain/team-identifier merging mutate only the
parsed entitlements dictionary, never `provision_data` — and the post-mutation
state is reflected solely in the entitlements handed to the signing
settings. -/
theorem embedded_profile_bytes_are_loaded_bytes :
    (∀ (p : MobileProvision) (id : String),
      (replace_wildcard_in_entitlements p id).provision_data = p.provision_data)
    ∧ (∀ (p : MobileProvision) (bents : Option PDict) (p2 : MobileProvision),
        merge_entitlements p bents = some p2 → p2.provision_data = p.provision_data)
    ∧ (∀ (bundle_type : BundleType) (bid : Option String) (bents : Option PDict)
        (provs : List MobileProvision) (p0 : MobileProvision),
        (bundle_type = .AppExtension ∨ bundle_type = .App) → provs ≠ [] →
        select_provisioning bid provs = some p0 →
        (sign_single_bundle_embed bundle_type bid bents provs).1
          = some p0.provision_data) :=
  ⟨fun p id => replace_wildcard_keeps_provision_data p id,
   fun p bents p2 h => merge_entitlements_keeps_provision_data p bents p2 h,
   fun bundle_type bid bents provs p0 htype hne hsel => by
    rw [sign_embed_unfold bundle_type bid bents p0 provs htype hne hsel]⟩

/-- C2 witness: the amended claim applied at a concrete profile with a
wildcard entitlement. -/
theorem embedded_profile_bytes_are_loaded_bytes_witness :
    (sign_single_bundle_embed .App (some "com.y") none
      [⟨[7, 8], .pdict [], [("application-identifier", .pstr "T.*")]⟩]).1
      = some [7, 8] :=
  embedded_profile_bytes_are_loaded_bytes.2.2 .App (some "com.y") none
    [⟨[7, 8], .pdict [], [("application-identifier", .pstr "T.*")]⟩]
    ⟨[7, 8], .pdict [], [("application-identifier", .pstr "T.*")]⟩
    (Or.inr rfl) (by simp) rfl

/-- C10: profile selection for an App/AppExtension bundle matches a profile
only when its `bundle_id()` string-equals the sub-bundle's identifier, and when
no profile matches it silently falls back to the first profile in the list —
still embedding its bytes rather than failing. -/
theorem profile_selection_fallback_first :
    (∀ (bid : Option String) (provs : List MobileProvision),
      (∀ p ∈ provs, provMatchesBundle bid p = false) →
      select_provisioning bid provs = provs.head?)
    ∧ (∀ (bid : Option String) (provs : List MobileProvision) (p : MobileProvision),
        provs.find? (provMatchesBundle bid) = some p →
        select_provisioning bid provs = some p
        ∧ ∃ b pid, bid = some b ∧ bundle_id p = some pid ∧ pid = b)
    ∧ (∀ (bid : Option String) (bents : Option PDict) (p0 : MobileProvision)
        (rest : List MobileProvision),
        (∀ p ∈ p0 :: rest, provMatchesBundle bid p = false) →
        (sign_single_bundle_embed .App bid bents (p0 :: rest)).1
          = some p0.provision_data) := by
  have hfallback : ∀ (bid : Option String) (provs : List MobileProvision),
      (∀ p ∈ provs, provMatchesBundle bid p = false) →
      select_provisioning bid provs = provs.head? := by
    intro bid provs h
    unfold select_provisioning
    have hnone : provs.find? (provMatchesBundle bid) = none := by
      rw [List.find?_eq_none]
      intro x hx hpx
      rw [h x hx] at hpx
      cases hpx
    rw [hnone]
    rfl
  refine ⟨hfallback, ?_, ?_⟩
  · intro bid provs p h
    constructor
    · unfold select_provisioning
      rw [h]
      rfl
    · have hp : provMatchesBundle bid p = true := List.find?_some h
      unfold provMatchesBundle at hp
      cases bid with
      | none => cases hp
      | some b =>
        cases hpid : bundle_id p with
        | none =>
          rw [hpid] at hp
          cases hp
        | some pid =>
          rw [hpid] at hp
          exact ⟨b, pid, rfl, rfl, eq_of_beq hp⟩
  · intro bid bents p0 rest h
    have hsel : select_provisioning bid (p0 :: rest) = some p0 := by
      rw [hfallback bid (p0 :: rest) h]
      rfl
    rw [sign_embed_unfold .App bid bents p0 (p0 :: rest) (Or.inr rfl) (by simp) hsel]

/-- C10 witness: with a single profile whose bundle id cannot match (no
application-identifier entitlement), selection falls back to that first
profile and the embed step still writes its bytes. -/
theorem profile_selection_fallback_first_witness :
    select_provisioning (some "com.app") [⟨[9], .pdict [], []⟩]
      = ([⟨[9], .pdict [], []⟩] : List MobileProvision).head?
    ∧ (sign_single_bundle_embed .App (some "com.app") none [⟨[9], .pdict [], []⟩]).1
      = some [9] :=
  ⟨profile_selection_fallback_first.1 (some "com.app") [⟨[9], .pdict [], []⟩]
    (by
      intro p hp
      rcases List.mem_singleton.mp hp with rfl
      rfl),
   profile_selection_fallback_first.2.2 (some "com.app") none ⟨[9], .pdict [], []⟩ []
    (by
      intro p hp
      rcases List.mem_singleton.mp hp with rfl
      rfl)⟩

end Plume
